import Mathlib

/-!
Shallow embedding of `src/main.py` (GlobalFreightDataScraper).

The program is a sequential scraping pipeline: enumerate company links per
country, fetch and parse each company detail page, fetch and parse a
secondary contact endpoint, merge the pieces into flat records, and upsert
the records into a table keyed by CompanyId.

Network and markup are external inputs, so each fetch is modelled by an
oracle: `none` means the request or the parse raised (network error,
timeout, bad markup); `some page` means it returned the given parsed page.
Python dictionaries are modelled as association lists built with Python's
insert-or-overwrite semantics, Python exceptions as `Except`, and the SQL
table as a list of rows.
-/

/-- A Python value as it appears in this program: a string or a list of
strings (the `OfferedServices` field). -/
inductive Value where
  | s (v : String)
  | arr (v : List String)
deriving DecidableEq, Repr

/-- A Python dict with string keys, as an association list in insertion
order. -/
abbrev Dict := List (String × Value)

/-- Python `d[k]` lookup result (first occurrence; dicts built by
`dictInsert` never hold duplicate keys). -/
def lookupD : List (String × α) → String → Option α
  | [], _ => none
  | (k, v) :: rest, key => if k = key then some v else lookupD rest key

/-- Python `d[k] = v`: overwrite in place if the key exists, else append. -/
def dictInsert (d : List (String × α)) (k : String) (v : α) : List (String × α) :=
  if d.any (fun p => p.1 = k) then
    d.map (fun p => if p.1 = k then (k, v) else p)
  else d ++ [(k, v)]

/-- Python `{**a, **b}`: start from `a`, then insert every entry of `b` in
order, later entries overwriting earlier ones. -/
def dictMerge (a b : List (String × α)) : List (String × α) :=
  b.foldl (fun d p => dictInsert d p.1 p.2) a

/-- The record assembly in `main`:
`{**company_details, **contact_details, "Country": country_name}`. -/
def assembleRecord (company_details contact_details : Dict) (country : Value) : Dict :=
  dictInsert (dictMerge company_details contact_details) "Country" country

/-- Python `d[k]` as an expression: raises `KeyError k` when absent. -/
def getKey (r : Dict) (k : String) : Except String Value :=
  match lookupD r k with
  | some v => Except.ok v
  | none => Except.error k

/-- Python `str.strip()` (trim whitespace at both ends), implemented over
the character list so that it evaluates by reduction. -/
def pyStrip (s : String) : String :=
  String.mk (((s.data.dropWhile Char.isWhitespace).reverse.dropWhile
    Char.isWhitespace).reverse)

/-- Whether `pat` is a leading prefix of `l`. -/
def listStartsWith : List Char → List Char → Bool
  | [], _ => true
  | _ :: _, [] => false
  | p :: ps, c :: cs => p = c ∧ listStartsWith ps cs

/-- The scan of Python `str.replace`: at each position, if the (nonempty)
pattern starts here, emit the replacement and skip the pattern, else emit
the character. `fuel` bounds the scan by the list length. -/
def replaceGo (pat rep : List Char) : Nat → List Char → List Char
  | 0, l => l
  | fuel + 1, l =>
    match l with
    | [] => []
    | c :: cs =>
      if listStartsWith pat l then rep ++ replaceGo pat rep fuel (l.drop pat.length)
      else c :: replaceGo pat rep fuel cs

/-- Python `s.replace(old, new)`: replace every (non-overlapping)
occurrence, scanning left to right. -/
def pyReplace (s old new : String) : String :=
  if old.data.isEmpty then s
  else String.mk (replaceGo old.data new.data s.data.length s.data)

/-- Python `s.split(sep)` for a one-character separator. -/
def pySplit (sep : Char) : List Char → List (List Char)
  | [] => [[]]
  | c :: cs =>
    if c = sep then [] :: pySplit sep cs
    else
      match pySplit sep cs with
      | [] => [[c]]
      | h :: t => (c :: h) :: t

/-- Python `sep.join(parts)`. -/
def pyJoin (sep : List Char) : List (List Char) → List Char
  | [] => []
  | [x] => x
  | x :: y :: t => x ++ sep ++ pyJoin sep (y :: t)

/-- The address normalization in `scrape_company_details`:
`'\n'.join([line.strip() for line in text.split('\n')]).strip()`. -/
def normalizeAddress (s : String) : String :=
  pyStrip (String.mk (pyJoin ['\n']
    ((pySplit '\n' s.data).map (fun l => (pyStrip (String.mk l)).data))))

/-- The parsed contact-endpoint fragment, reduced to the three
`select_one` results `get_contact_details` inspects: the attribute lists
of the anchors under the phone / mail / site icons (`none` = no such
anchor in the fragment). -/
structure ContactPage where
  phoneA : Option (List (String × String))
  mailA : Option (List (String × String))
  siteA : Option (List (String × String))
deriving DecidableEq, Repr

/-- One field of the contact dict:
`(anchor['href'].replace(pre, "") if anchor else "")`.
A present anchor without `href` raises `KeyError "href"`. -/
def contactField (anchor : Option (List (String × String))) (pre : String) :
    Except String String :=
  match anchor with
  | none => Except.ok ""
  | some attrs =>
    match lookupD attrs "href" with
    | none => Except.error "href"
    | some h => Except.ok (pyReplace h pre "")

/-- The Website field: the href verbatim (no replacement). -/
def contactWebsite (anchor : Option (List (String × String))) :
    Except String String :=
  match anchor with
  | none => Except.ok ""
  | some attrs =>
    match lookupD attrs "href" with
    | none => Except.error "href"
    | some h => Except.ok h

/-- `get_contact_details` (src/main.py lines 79-112): POST the contact
endpoint, parse the fragment, build the three-field dict; any exception
(network failure, i.e. `resp = none`, or a missing `href` on a present
anchor) is caught and the empty dict is returned. -/
def get_contact_details (resp : Option ContactPage) : Dict :=
  match resp with
  | none => []
  | some p =>
    match contactField p.phoneA "tel:", contactField p.mailA "mailto:",
          contactWebsite p.siteA with
    | Except.ok ph, Except.ok em, Except.ok ws =>
      [("Phone", Value.s ph), ("Email", Value.s em), ("Website", Value.s ws)]
    | _, _, _ => []

/-- The parsed company detail page, reduced to what
`scrape_company_details` inspects: the text of
`div[class="title-teaser-wrap"] > h1`, the text of
`div[class="address-wrap"]`, the texts of the `div[class="services"] >
ul > li` items (`select` yields `[]` when the block is absent), and the
`data-company` attribute of `div[data-company]`. `none` = `select_one`
found no match. -/
structure DetailPage where
  titleText : Option String
  addressText : Option String
  serviceItems : List String
  companyAttr : Option String
deriving DecidableEq, Repr

mutual
/-- An HTML node as BeautifulSoup exposes it: an element with a tag, an
attribute list and children, or a text node. Children are a `NodeList`
(an inlined list) so that structural recursion over the tree is
available. -/
inductive Node where
  | elem (tag : String) (attrs : List (String × String)) (children : NodeList)
  | text (s : String)
inductive NodeList where
  | nil
  | cons (hd : Node) (tl : NodeList)
end

/-- Build a `NodeList` from a `List Node`. -/
def NodeList.ofList : List Node → NodeList
  | [] => NodeList.nil
  | n :: rest => NodeList.cons n (NodeList.ofList rest)

mutual
/-- `soup.select('div[class="company-name"] > a')`: the attribute lists
of all `a` elements whose parent is a `div` whose `class` attribute is
exactly `company-name`, in document (preorder) order. `p` says whether
the current node's parent is such a div. -/
def collectAnchors (p : Bool) : Node → List (List (String × String))
  | .text _ => []
  | .elem t as ch =>
    (if p ∧ t = "a" then [as] else []) ++
      collectAnchorsList (t = "div" ∧ lookupD as "class" = some "company-name") ch
def collectAnchorsList (p : Bool) : NodeList → List (List (String × String))
  | .nil => []
  | .cons n rest => collectAnchors p n ++ collectAnchorsList p rest
end

/-- `get_company_urls` (src/main.py lines 51-61): GET the listing page,
select the company anchors, and return `(country_name, a['href'])` for
each; any exception (failed request/parse, `page = none`, or a matched
anchor without `href`) is caught and `[]` is returned. -/
def get_company_urls (page : Option Node) (country_name : String) :
    List (String × String) :=
  match page with
  | none => []
  | some root =>
    let companies := collectAnchors false root
    if companies.all (fun a => (lookupD a "href").isSome) then
      companies.filterMap (fun a => (lookupD a "href").map
        (fun h => (country_name, h)))
    else []

/-- `scrape_company_details` (src/main.py lines 63-77): GET the detail
page and build the four-field dict; `.text` / `['data-company']` on a
missing element raises, the exception is caught, and the empty dict is
returned. `page = none` models a failed request or parse. -/
def scrape_company_details (page : Option DetailPage) : Dict :=
  match page with
  | none => []
  | some p =>
    match p.titleText, p.addressText, p.companyAttr with
    | some t, some addr, some cid =>
      [("CompanyName", Value.s (pyStrip t)),
       ("Address", Value.s (normalizeAddress addr)),
       ("OfferedServices", Value.arr (p.serviceItems.map pyStrip)),
       ("CompanyId", Value.s (pyStrip cid))]
    | _, _, _ => []

/-- A character escaped as `json.dumps` escapes it (quote and backslash;
the strings in this development contain no control characters). -/
def jsonEscapeChar (c : Char) : String :=
  if c = '"' ∨ c = '\\' then "\\" ++ c.toString else c.toString

/-- A JSON string literal. -/
def jsonStr (s : String) : String :=
  "\"" ++ String.join (s.toList.map jsonEscapeChar) ++ "\""

/-- `json.dumps` as applied to `record['OfferedServices']` in
`update_database`: a list of strings becomes a JSON array, a plain
string a JSON string. -/
def jsonDumpsValue : Value → String
  | Value.s v => jsonStr v
  | Value.arr l => "[" ++ String.intercalate ", " (l.map jsonStr) ++ "]"

/-- One row of `your_table`, with the columns the queries in
`update_database` name. `OfferedServices` holds the serialized array. -/
structure Row where
  CompanyId : Value
  CompanyName : Value
  Address : Value
  OfferedServices : String
  Phone : Value
  Email : Value
  Website : Value
  Country : Value
deriving DecidableEq, Repr

/-- How `update_database` ends: `ok` (loop ran to completion) or
`aborted` (a storage-level `mysql.connector.Error` was caught: the
remaining loop is skipped and the function returns normally). -/
inductive DbResult where
  | ok
  | aborted
deriving DecidableEq, Repr

/-- The row a fully-populated record inserts or updates to: each column
is the corresponding dict entry, with `OfferedServices` run through
`json.dumps`. `none` when some key is missing. -/
def toRow? (r : Dict) : Option Row := do
  let cid ← lookupD r "CompanyId"
  let nm ← lookupD r "CompanyName"
  let addr ← lookupD r "Address"
  let svc ← lookupD r "OfferedServices"
  let ph ← lookupD r "Phone"
  let em ← lookupD r "Email"
  let ws ← lookupD r "Website"
  let co ← lookupD r "Country"
  pure ⟨cid, nm, addr, jsonDumpsValue svc, ph, em, ws, co⟩

/-- The table after one record's upsert: if some row has the record's
CompanyId, overwrite the non-key columns of every such row (the SQL
`UPDATE ... WHERE CompanyId = %s`), else append the full row (the SQL
`INSERT`). -/
def applyRecord (table : List Row) (row : Row) : List Row :=
  if table.any (fun x => x.CompanyId = row.CompanyId) then
    table.map (fun x => if x.CompanyId = row.CompanyId then row else x)
  else table ++ [row]

/-- The table after upserting a batch of rows in order. -/
def upsertRows (table : List Row) (rows : List Row) : List Row :=
  rows.foldl applyRecord table

/-- The per-record loop of `update_database` (src/main.py lines
136-170). `fail i` says whether a storage-level error strikes while
record `i` is processed (its point lookup, its execute, or its commit):
the error is caught by `except Error`, the loop is abandoned, earlier
per-record commits stay. A record missing a key raises `KeyError`
(`Except.error` with the key), which `except Error` does not catch, so
it propagates out of the function. -/
def upsertLoop (fail : Nat → Bool) : Nat → List Row → List Dict →
    Except String (List Row × DbResult)
  | _, table, [] => Except.ok (table, DbResult.ok)
  | i, table, r :: rs =>
    if fail i then Except.ok (table, DbResult.aborted)
    else do
      let cid ← getKey r "CompanyId"
      let found := table.any (fun x => x.CompanyId = cid)
      let nm ← getKey r "CompanyName"
      let addr ← getKey r "Address"
      let svc ← getKey r "OfferedServices"
      let ph ← getKey r "Phone"
      let em ← getKey r "Email"
      let ws ← getKey r "Website"
      let co ← getKey r "Country"
      let newRow : Row := ⟨cid, nm, addr, jsonDumpsValue svc, ph, em, ws, co⟩
      let table' :=
        if found then
          table.map (fun x =>
            if x.CompanyId = cid then { newRow with CompanyId := x.CompanyId }
            else x)
        else table ++ [newRow]
      upsertLoop fail (i + 1) table' rs

/-- `update_database` (src/main.py lines 130-176): no-op on an empty
batch, else the commit-per-record upsert loop. -/
def update_database (fail : Nat → Bool) (table : List Row)
    (records : List Dict) : Except String (List Row × DbResult) :=
  if records.isEmpty then Except.ok (table, DbResult.ok)
  else upsertLoop fail 0 table records

/-- The inner `for country_name, details in location.items()` loop of
`main` (src/main.py lines 190-197), reduced to which country-iterations
it processes: returns the processed `(country_name, url)` pairs, the
counter after the loop, and whether it left via `break`
(`debug_mode and counter == 5`). -/
def innerLoop (debug : Bool) : Nat → List (String × String) →
    List (String × String) × Nat × Bool
  | counter, [] => ([], counter, false)
  | counter, (c, u) :: rest =>
    let counter' := counter + 1
    if debug ∧ counter' = 5 then ([(c, u)], counter', true)
    else
      let r := innerLoop debug counter' rest
      ((c, u) :: r.1, r.2)

/-- The outer `for location in locations` loop of `main`: after each
location the same `debug_mode and counter == 5` check breaks the outer
loop. Returns the processed country-iterations in order. -/
def outerLoop (debug : Bool) : Nat → List (List (String × String)) →
    List (String × String)
  | _, [] => []
  | counter, loc :: rest =>
    let r := innerLoop debug counter loc
    if debug ∧ r.2.1 = 5 then r.1
    else r.1 ++ outerLoop debug r.2.1 rest

/-- The external world of one run: each fetch is an oracle keyed by what
the program sends it (`none` = the request or parse raised), `dbUp` is
whether `connect_database` succeeded, `fail` is the storage-error oracle
of the upsert loop. -/
structure Env where
  listing : String → Option Node
  detail : String → Option DetailPage
  contact : Value → Option ContactPage
  dbUp : Bool
  fail : Nat → Bool

/-- The record-assembly loop of `main` (src/main.py lines 199-204): for
each enumerated `(country_name, company_url)`, scrape the detail page;
a falsy (empty) result is skipped; otherwise `company_details["CompanyId"]`
is read (a raw subscript: a missing key would raise), the contact
endpoint is queried, and the merged record is appended. -/
def assembleAll (env : Env) : List (String × String) → Except String (List Dict)
  | [] => Except.ok []
  | (country_name, company_url) :: rest => do
    let company_details := scrape_company_details (env.detail company_url)
    if company_details.isEmpty then assembleAll env rest
    else do
      let cid ← getKey company_details "CompanyId"
      let contact_details := get_contact_details (env.contact cid)
      let objs ← assembleAll env rest
      pure (assembleRecord company_details contact_details
        (Value.s country_name) :: objs)

/-- `main` (src/main.py lines 178-218) from after configuration reading:
enumerate the company urls country by country (with the debug cap),
assemble the records, and, when the database connection succeeded, run
`update_database` over the batch starting from table state `table0`.
File exports are external serialization and are not modelled. The result
is the assembled batch, the final table, and how the upsert ended; an
`Except.error` is an exception that terminates `main`. -/
def mainRun (env : Env) (debug : Bool)
    (locations : List (List (String × String))) (table0 : List Row) :
    Except String (List Dict × List Row × DbResult) := do
  let allCompanyUrls := (outerLoop debug 0 locations).flatMap
    (fun p => get_company_urls (env.listing p.2) p.1)
  let resultObjs ← assembleAll env allCompanyUrls
  if env.dbUp then do
    let r ← update_database env.fail table0 resultObjs
    pure (resultObjs, r.1, r.2)
  else pure (resultObjs, table0, DbResult.ok)

/-- The CompanyId column of a table. -/
def tableIds (t : List Row) : List Value := t.map (fun r => r.CompanyId)

mutual
/-- Modelled from the spec words "anchor elements nested under
company-name marker elements" (claim C7): the attribute lists of all `a`
elements that are descendants, at any depth, of a `div` whose `class`
attribute is `company-name`, in document order. This is the comparison
definition for the claim; the code's selector uses the child combinator
`>` instead. -/
def nestedAnchors (underCN : Bool) : Node → List (List (String × String))
  | .text _ => []
  | .elem t as ch =>
    (if underCN ∧ t = "a" then [as] else []) ++
      nestedAnchorsList
        (underCN ∨ (t = "div" ∧ lookupD as "class" = some "company-name")) ch
def nestedAnchorsList (underCN : Bool) : NodeList → List (List (String × String))
  | .nil => []
  | .cons n rest => nestedAnchors underCN n ++ nestedAnchorsList underCN rest
end

/-- Modelled from the spec words "with a \"tel:\" prefix stripped (prefix
removed, remainder unchanged)" (claim C9): remove `pre` once, and only
when it is a leading prefix. Comparison definition for the claim; the
code applies `str.replace`, which removes every occurrence. -/
def stripPrefixSpec (pre s : String) : String :=
  if listStartsWith pre.data s.data then String.mk (s.data.drop pre.data.length)
  else s

/-- A concrete run environment: one country listing with a single company
anchor, a complete detail page for it (CompanyId `123`), and a contact
endpoint whose request always fails. -/
def envFail : Env where
  listing := fun u =>
    if u = "/de" then
      some (Node.elem "div" [("class", "company-name")]
        (NodeList.cons (Node.elem "a" [("href", "/c/alpha")] NodeList.nil)
          NodeList.nil))
    else none
  detail := fun u =>
    if u = "/c/alpha" then
      some ⟨some "Acme", some "Street 1", ["Air"], some "123"⟩
    else none
  contact := fun _ => none
  dbUp := true
  fail := fun _ => false

/-- The record `envFail` assembles: all detail fields and the country,
but no contact fields, because contact resolution failed. -/
def recNoContact : Dict :=
  [("CompanyName", Value.s "Acme"), ("Address", Value.s "Street 1"),
   ("OfferedServices", Value.arr ["Air"]), ("CompanyId", Value.s "123"),
   ("Country", Value.s "Germany")]

/-- A fully populated record (every column present), CompanyId `1`. -/
def recW : Dict :=
  [("CompanyId", Value.s "1"), ("CompanyName", Value.s "A"),
   ("Address", Value.s "x"), ("OfferedServices", Value.arr ["s"]),
   ("Phone", Value.s "p"), ("Email", Value.s "e"),
   ("Website", Value.s "w"), ("Country", Value.s "DE")]

/-- A fully populated record, CompanyId `2`. -/
def recW2 : Dict :=
  [("CompanyId", Value.s "2"), ("CompanyName", Value.s "B"),
   ("Address", Value.s "y"), ("OfferedServices", Value.arr []),
   ("Phone", Value.s ""), ("Email", Value.s ""),
   ("Website", Value.s ""), ("Country", Value.s "FR")]

/-- A listing page holding one company-name div with two anchors nested
under it: a direct child `a` without `href`, and a grandchild `a` (inside
a `span`) with `href`. -/
def pageCex7 : Node :=
  Node.elem "div" [("class", "company-name")]
    (NodeList.cons (Node.elem "a" [] NodeList.nil)
      (NodeList.cons
        (Node.elem "span" []
          (NodeList.cons (Node.elem "a" [("href", "/c/x")] NodeList.nil)
            NodeList.nil))
        NodeList.nil))

/-! ### Association-list (Python dict) lemmas -/

theorem lookupD_append (d e : List (String × α)) (k : String) :
    lookupD (d ++ e) k =
      match lookupD d k with
      | some v => some v
      | none => lookupD e k := by
  induction d with
  | nil => simp [lookupD]
  | cons p rest ih =>
    obtain ⟨k1, v1⟩ := p
    by_cases h : k1 = k <;> simp [lookupD, h, ih]

theorem lookupD_eq_none_of_any_eq_false (d : List (String × α)) (k : String)
    (h : d.any (fun p => p.1 = k) = false) : lookupD d k = none := by
  induction d with
  | nil => rfl
  | cons p rest ih =>
    obtain ⟨k1, v1⟩ := p
    simp only [List.any_cons, Bool.or_eq_false_iff] at h
    have h1 : k1 ≠ k := by simpa using h.1
    simp [lookupD, h1, ih h.2]

theorem lookupD_map_overwrite (k : String) (v : α) (k' : String) :
    ∀ d : List (String × α),
      lookupD (d.map (fun p => if p.1 = k then (k, v) else p)) k' =
        if k = k' then (if d.any (fun p => p.1 = k) then some v else none)
        else lookupD d k'
  | [] => by simp [lookupD]
  | (k1, v1) :: rest => by
    have ih := lookupD_map_overwrite k v k' rest
    by_cases h1 : k1 = k
    · rw [List.map_cons, if_pos (show (k1, v1).1 = k from h1)]
      subst h1
      by_cases h2 : k1 = k'
      · subst h2; simp [lookupD]
      · simp [lookupD, h2, ih]
    · rw [List.map_cons, if_neg (show ¬(k1, v1).1 = k from h1)]
      by_cases h2 : k1 = k'
      · subst h2
        simp [lookupD, ih, Ne.symm h1, h1]
      · have hd : decide (k1 = k) = false := by simp [h1]
        simp only [lookupD, List.any_cons, hd, Bool.false_or]
        simp [h2, ih, h1]

theorem lookupD_dictInsert (d : List (String × α)) (k : String) (v : α)
    (k' : String) :
    lookupD (dictInsert d k v) k' = if k = k' then some v else lookupD d k' := by
  unfold dictInsert
  by_cases h : d.any (fun p => p.1 = k) = true
  · rw [if_pos h, lookupD_map_overwrite]
    simp [h]
  · rw [if_neg h, lookupD_append]
    have hnone := lookupD_eq_none_of_any_eq_false d k
      (by revert h; cases d.any (fun p => p.1 = k) <;> simp)
    by_cases hk : k = k'
    · subst hk; simp [hnone, lookupD]
    · cases hd : lookupD d k' <;> simp [lookupD, hk, hd]

theorem dictMerge_cons (a : List (String × α)) (k : String) (v : α)
    (b : List (String × α)) :
    dictMerge a ((k, v) :: b) = dictMerge (dictInsert a k v) b := rfl

theorem lookupD_dictMerge (k : String) :
    ∀ (b a : List (String × α)),
      lookupD (dictMerge a b) k =
        match lookupD b.reverse k with
        | some v => some v
        | none => lookupD a k
  | [], a => by simp [dictMerge, lookupD]
  | (k1, v1) :: b', a => by
    rw [dictMerge_cons, lookupD_dictMerge k b' (dictInsert a k1 v1)]
    simp only [List.reverse_cons]
    rw [lookupD_append]
    cases hb : lookupD b'.reverse k
    · simp only [lookupD_dictInsert]
      by_cases h1 : k1 = k <;> simp [lookupD, h1]
    · simp

theorem lookupD_eq_none_of_forall (d : List (String × α)) (k : String)
    (h : ∀ p ∈ d, p.1 ≠ k) : lookupD d k = none := by
  induction d with
  | nil => rfl
  | cons p rest ih =>
    obtain ⟨k1, v1⟩ := p
    have h1 : k1 ≠ k := h (k1, v1) (List.mem_cons_self _ _)
    simp [lookupD, h1, ih (fun q hq => h q (List.mem_cons_of_mem _ hq))]

theorem lookupD_reverse_of_nodup (k : String) :
    ∀ b : List (String × α), (b.map Prod.fst).Nodup →
      lookupD b.reverse k = lookupD b k
  | [], _ => rfl
  | (k1, v1) :: b', h => by
    simp only [List.map_cons, List.nodup_cons] at h
    rw [List.reverse_cons, lookupD_append,
      lookupD_reverse_of_nodup k b' h.2]
    by_cases h1 : k1 = k
    · subst h1
      have : lookupD b' k1 = none := by
        apply lookupD_eq_none_of_forall
        intro p hp hpk
        exact h.1 (hpk ▸ List.mem_map_of_mem Prod.fst hp)
      simp [lookupD, this]
    · cases hb : lookupD b' k <;> simp [lookupD, h1, hb]

theorem lookupD_dictMerge_isSome_left (a b : List (String × α)) (k : String)
    (h : (lookupD a k).isSome) : (lookupD (dictMerge a b) k).isSome := by
  rw [lookupD_dictMerge]
  cases hb : lookupD b.reverse k
  · simpa using h
  · simp

theorem lookupD_assembleRecord_country (a b : Dict) (c : Value) :
    lookupD (assembleRecord a b c) "Country" = some c := by
  unfold assembleRecord
  rw [lookupD_dictInsert]
  simp

theorem lookupD_assembleRecord_of_left (a b : Dict) (c : Value) (k : String)
    (hk : k ≠ "Country") (h : (lookupD a k).isSome) :
    (lookupD (assembleRecord a b c) k).isSome := by
  unfold assembleRecord
  rw [lookupD_dictInsert, if_neg (fun hc => hk hc.symm)]
  exact lookupD_dictMerge_isSome_left a b k h

theorem toRow?_inv (r : Dict) (row : Row) (h : toRow? r = some row) :
    lookupD r "CompanyId" = some row.CompanyId ∧
    lookupD r "CompanyName" = some row.CompanyName ∧
    lookupD r "Address" = some row.Address ∧
    (∃ svc, lookupD r "OfferedServices" = some svc ∧
      row.OfferedServices = jsonDumpsValue svc) ∧
    lookupD r "Phone" = some row.Phone ∧
    lookupD r "Email" = some row.Email ∧
    lookupD r "Website" = some row.Website ∧
    lookupD r "Country" = some row.Country := by
  unfold toRow? at h
  simp only [Option.bind_eq_bind] at h
  obtain ⟨cid, hc, h⟩ := Option.bind_eq_some.mp h
  obtain ⟨nm, hn, h⟩ := Option.bind_eq_some.mp h
  obtain ⟨addr, ha, h⟩ := Option.bind_eq_some.mp h
  obtain ⟨svc, hs, h⟩ := Option.bind_eq_some.mp h
  obtain ⟨ph, hp, h⟩ := Option.bind_eq_some.mp h
  obtain ⟨em, he, h⟩ := Option.bind_eq_some.mp h
  obtain ⟨ws, hw, h⟩ := Option.bind_eq_some.mp h
  obtain ⟨co, hco, h⟩ := Option.bind_eq_some.mp h
  obtain rfl : row = ⟨cid, nm, addr, jsonDumpsValue svc, ph, em, ws, co⟩ :=
    (Option.some.inj h).symm
  exact ⟨hc, hn, ha, ⟨svc, hs, rfl⟩, hp, he, hw, hco⟩

theorem getKey_eq_ok (r : Dict) (k : String) (v : Value)
    (h : lookupD r k = some v) : getKey r k = Except.ok v := by
  simp [getKey, h]

theorem applyRecord_eq_loop_body (table : List Row) (row : Row) :
    applyRecord table row =
      (if table.any (fun x => x.CompanyId = row.CompanyId) then
        table.map (fun x =>
          if x.CompanyId = row.CompanyId then { row with CompanyId := x.CompanyId }
          else x)
      else table ++ [row]) := by
  unfold applyRecord
  by_cases h : table.any (fun x => x.CompanyId = row.CompanyId) = true
  · rw [if_pos h, if_pos h]
    apply List.map_congr_left
    intro x _
    by_cases hx : x.CompanyId = row.CompanyId
    · rw [if_pos hx, if_pos hx, hx]
    · rw [if_neg hx, if_neg hx]
  · rw [if_neg h, if_neg h]

theorem upsertLoop_cons_ok (fail : Nat → Bool) (i : Nat) (table : List Row)
    (r : Dict) (rs : List Dict) (row : Row)
    (hf : fail i = false) (hrow : toRow? r = some row) :
    upsertLoop fail i table (r :: rs) =
      upsertLoop fail (i + 1) (applyRecord table row) rs := by
  obtain ⟨hc, hn, ha, ⟨svc, hs, hsvc⟩, hp, he, hw, hco⟩ := toRow?_inv r row hrow
  have hrow' : (⟨row.CompanyId, row.CompanyName, row.Address, jsonDumpsValue svc,
      row.Phone, row.Email, row.Website, row.Country⟩ : Row) = row := by
    cases row
    simp_all
  rw [applyRecord_eq_loop_body]
  simp only [upsertLoop, hf, Bool.false_eq_true, if_false,
    getKey_eq_ok r "CompanyId" _ hc, getKey_eq_ok r "CompanyName" _ hn,
    getKey_eq_ok r "Address" _ ha, getKey_eq_ok r "OfferedServices" _ hs,
    getKey_eq_ok r "Phone" _ hp, getKey_eq_ok r "Email" _ he,
    getKey_eq_ok r "Website" _ hw, getKey_eq_ok r "Country" _ hco, hsvc]
  rw [← hrow']
  rfl

theorem upsertLoop_run_ok (fail : Nat → Bool) (hfail : ∀ j, fail j = false) :
    ∀ (rs : List Dict) (i : Nat) (table : List Row),
      (∀ r ∈ rs, (toRow? r).isSome) →
      upsertLoop fail i table rs =
        Except.ok (upsertRows table (rs.filterMap toRow?), DbResult.ok)
  | [], i, table, _ => by simp [upsertLoop, upsertRows]
  | r :: rs, i, table, hfull => by
    obtain ⟨row, hrow⟩ := Option.isSome_iff_exists.mp
      (hfull r (List.mem_cons_self _ _))
    rw [upsertLoop_cons_ok fail i table r rs row (hfail i) hrow]
    rw [upsertLoop_run_ok fail hfail rs (i + 1) (applyRecord table row)
      (fun q hq => hfull q (List.mem_cons_of_mem _ hq))]
    simp [List.filterMap_cons, hrow, upsertRows]

theorem upsertLoop_run_abort (fail : Nat → Bool) :
    ∀ (k : Nat) (rs : List Dict) (i : Nat) (table : List Row),
      (∀ j, j < k → fail (i + j) = false) → fail (i + k) = true →
      k < rs.length → (∀ r ∈ rs.take k, (toRow? r).isSome) →
      upsertLoop fail i table rs =
        Except.ok (upsertRows table ((rs.take k).filterMap toRow?),
          DbResult.aborted)
  | 0, rs, i, table, _, hk, hlen, _ => by
    cases rs with
    | nil => simp at hlen
    | cons r rs =>
      have : fail i = true := by simpa using hk
      simp [upsertLoop, this, upsertRows]
  | k + 1, rs, i, table, hlt, hk, hlen, hfull => by
    cases rs with
    | nil => simp at hlen
    | cons r rs =>
      obtain ⟨row, hrow⟩ := Option.isSome_iff_exists.mp
        (hfull r (by simp [List.take_succ_cons]))
      have hfi : fail i = false := by simpa using hlt 0 (Nat.succ_pos k)
      rw [upsertLoop_cons_ok fail i table r rs row hfi hrow]
      rw [upsertLoop_run_abort fail k rs (i + 1) (applyRecord table row)
        (fun j hj => by
          have := hlt (j + 1) (Nat.succ_lt_succ hj)
          simpa [Nat.add_assoc, Nat.add_comm 1 j] using this)
        (by
          have := hk
          simpa [Nat.add_assoc, Nat.add_comm 1 k] using this)
        (by simpa using Nat.lt_of_succ_lt_succ hlen)
        (fun q hq => hfull q (by simp [List.take_succ_cons, hq]))]
      simp [List.take_succ_cons, List.filterMap_cons, hrow, upsertRows]

theorem tableIds_applyRecord (t : List Row) (row : Row) :
    tableIds (applyRecord t row) =
      if t.any (fun x => x.CompanyId = row.CompanyId) then tableIds t
      else tableIds t ++ [row.CompanyId] := by
  unfold applyRecord tableIds
  by_cases h : t.any (fun x => x.CompanyId = row.CompanyId) = true
  · rw [if_pos h, if_pos h, List.map_map]
    apply List.map_congr_left
    intro x _
    by_cases hx : x.CompanyId = row.CompanyId <;> simp [hx]
  · rw [if_neg h, if_neg h, List.map_append]
    rfl

theorem tableIds_applyRecord_nodup (t : List Row) (row : Row)
    (h : (tableIds t).Nodup) : (tableIds (applyRecord t row)).Nodup := by
  rw [tableIds_applyRecord]
  by_cases ha : t.any (fun x => x.CompanyId = row.CompanyId) = true
  · simpa [ha] using h
  · have hnot : row.CompanyId ∉ tableIds t := by
      intro hmem
      obtain ⟨x, hx, hxeq⟩ := List.mem_map.mp hmem
      have : t.any (fun x => x.CompanyId = row.CompanyId) = true :=
        List.any_eq_true.mpr ⟨x, hx, by simp [hxeq]⟩
      exact ha this
    have ha' : (t.any fun x => decide (x.CompanyId = row.CompanyId)) = false := by
      revert ha; cases t.any fun x => decide (x.CompanyId = row.CompanyId) <;> simp
    simp only [ha', Bool.false_eq_true, if_false]
    rw [List.nodup_append_comm]
    simp only [List.singleton_append, List.nodup_cons]
    exact ⟨hnot, h⟩

theorem filter_eq_nil_of_any_eq_false (t : List Row) (c : Value)
    (h : t.any (fun x => x.CompanyId = c) = false) :
    t.filter (fun x => x.CompanyId = c) = [] := by
  rw [List.filter_eq_nil_iff]
  intro x hx
  exact List.any_eq_false.mp h x hx

theorem map_update_id_of_any_eq_false (t : List Row) (row : Row) (c : Value)
    (h : t.any (fun x => x.CompanyId = c) = false) :
    t.map (fun x => if x.CompanyId = c then row else x) = t := by
  have : t.map (fun x => if x.CompanyId = c then row else x) = t.map id := by
    apply List.map_congr_left
    intro x hx
    have hne := List.any_eq_false.mp h x hx
    simp only [decide_eq_true_eq] at hne
    simp [hne]
  rw [this, List.map_id]

theorem filter_map_update_self (row : Row) (c : Value) (hc : row.CompanyId = c) :
    ∀ t : List Row, (tableIds t).Nodup →
      t.any (fun x => x.CompanyId = c) = true →
      (t.map (fun x => if x.CompanyId = c then row else x)).filter
        (fun x => x.CompanyId = c) = [row]
  | [], _, ha => by simp at ha
  | x :: t, hn, ha => by
    simp only [tableIds, List.map_cons, List.nodup_cons] at hn
    by_cases hx : x.CompanyId = c
    · have hnone : t.any (fun y => y.CompanyId = c) = false := by
        rw [List.any_eq_false]
        intro y hy
        simp only [decide_eq_true_eq]
        intro hyc
        have hmem : y.CompanyId ∈ t.map (fun r => r.CompanyId) :=
          List.mem_map_of_mem (fun r => r.CompanyId) hy
        rw [hyc, ← hx] at hmem
        exact hn.1 hmem
      rw [List.map_cons, if_pos hx,
        map_update_id_of_any_eq_false t row c hnone, List.filter_cons]
      simp only [hc, decide_True, if_true]
      rw [filter_eq_nil_of_any_eq_false t c hnone]
    · have ha' : t.any (fun y => y.CompanyId = c) = true := by
        rcases List.any_eq_true.mp ha with ⟨y, hy, hyc⟩
        rcases List.mem_cons.mp hy with rfl | hy'
        · simp only [decide_eq_true_eq] at hyc
          exact absurd hyc hx
        · exact List.any_eq_true.mpr ⟨y, hy', hyc⟩
      have hrec := filter_map_update_self row c hc t
        (by simpa [tableIds] using hn.2) ha'
      rw [List.map_cons, if_neg hx, List.filter_cons]
      simp only [hx, decide_False, if_false]
      exact hrec

theorem filter_map_update_other (row : Row) (c id : Value)
    (hrc : row.CompanyId = c) (hne : id ≠ c) :
    ∀ t : List Row,
      (t.map (fun x => if x.CompanyId = c then row else x)).filter
        (fun x => x.CompanyId = id) = t.filter (fun x => x.CompanyId = id)
  | [] => by simp
  | x :: t => by
    rw [List.map_cons]
    by_cases hx : x.CompanyId = c
    · rw [if_pos hx, List.filter_cons, List.filter_cons]
      have h1 : ¬row.CompanyId = id := by rw [hrc]; exact fun h => hne h.symm
      have h2 : ¬x.CompanyId = id := by rw [hx]; exact fun h => hne h.symm
      simp only [h1, h2, decide_False, if_false]
      exact filter_map_update_other row c id hrc hne t
    · rw [if_neg hx, List.filter_cons, List.filter_cons]
      rw [filter_map_update_other row c id hrc hne t]

theorem filter_applyRecord (t : List Row) (row : Row) (id : Value)
    (h : (tableIds t).Nodup) :
    (applyRecord t row).filter (fun x => x.CompanyId = id) =
      if id = row.CompanyId then [row]
      else t.filter (fun x => x.CompanyId = id) := by
  unfold applyRecord
  by_cases ha : t.any (fun x => x.CompanyId = row.CompanyId) = true
  · rw [if_pos ha]
    by_cases hid : id = row.CompanyId
    · rw [if_pos hid, hid]
      exact filter_map_update_self row row.CompanyId rfl t h ha
    · rw [if_neg hid]
      exact filter_map_update_other row row.CompanyId id rfl hid t
  · have ha' : t.any (fun x => x.CompanyId = row.CompanyId) = false := by
      revert ha; cases t.any (fun x => x.CompanyId = row.CompanyId) <;> simp
    rw [if_neg ha, List.filter_append, List.filter_cons]
    by_cases hid : id = row.CompanyId
    · rw [if_pos hid, hid, filter_eq_nil_of_any_eq_false t row.CompanyId ha']
      simp
    · rw [if_neg hid]
      have : ¬row.CompanyId = id := fun hh => hid hh.symm
      simp [this]

theorem tableIds_upsertRows_nodup :
    ∀ (rows : List Row) (t : List Row), (tableIds t).Nodup →
      (tableIds (upsertRows t rows)).Nodup
  | [], t, h => h
  | row :: rows, t, h =>
    tableIds_upsertRows_nodup rows (applyRecord t row)
      (tableIds_applyRecord_nodup t row h)

theorem upsertRows_cons (t : List Row) (row : Row) (rows : List Row) :
    upsertRows t (row :: rows) = upsertRows (applyRecord t row) rows := rfl

theorem filter_upsertRows :
    ∀ (rows : List Row) (t : List Row) (id : Value), (tableIds t).Nodup →
      (upsertRows t rows).filter (fun x => x.CompanyId = id) =
        match (rows.filter (fun r => r.CompanyId = id)).getLast? with
        | some r => [r]
        | none => t.filter (fun x => x.CompanyId = id)
  | [], t, id, _ => by simp [upsertRows]
  | row :: rows, t, id, h => by
    rw [upsertRows_cons,
      filter_upsertRows rows (applyRecord t row) id
        (tableIds_applyRecord_nodup t row h)]
    rw [List.filter_cons]
    by_cases hid : row.CompanyId = id
    · simp only [hid, decide_True, if_true]
      cases hlast : (rows.filter (fun r => r.CompanyId = id)).getLast?
      · have hnil : rows.filter (fun r => r.CompanyId = id) = [] :=
          List.getLast?_eq_none_iff.mp hlast
      
        rw [List.getLast?_cons, hnil]
        simp only [List.getLast?_nil, Option.getD_none]
        rw [filter_applyRecord t row id h, if_pos hid.symm]
      · rw [List.getLast?_cons, hlast]
        simp
    · have hdec : decide (row.CompanyId = id) = false := by simp [hid]
      rw [hdec]
      simp only [Bool.false_eq_true, if_false]
      cases hlast : (rows.filter (fun r => r.CompanyId = id)).getLast?
      · rw [filter_applyRecord t row id h,
          if_neg (fun hh => hid hh.symm)]
      · rfl

theorem filterMap_toRow?_filter (id : Value) :
    ∀ rs : List Dict, (∀ r ∈ rs, (toRow? r).isSome) →
      (rs.filterMap toRow?).filter (fun x => x.CompanyId = id) =
        (rs.filter (fun r => lookupD r "CompanyId" = some id)).filterMap toRow?
  | [], _ => rfl
  | r :: rs, hfull => by
    obtain ⟨row, hrow⟩ := Option.isSome_iff_exists.mp
      (hfull r (List.mem_cons_self _ _))
    have ih := filterMap_toRow?_filter id rs
      (fun q hq => hfull q (List.mem_cons_of_mem _ hq))
    have hcid := (toRow?_inv r row hrow).1
    rw [List.filterMap_cons, hrow, List.filter_cons, List.filter_cons]
    by_cases hid : row.CompanyId = id
    · have hl : lookupD r "CompanyId" = some id := by rw [hcid, hid]
      simp only [hid, hl, decide_True, if_true]
      rw [List.filterMap_cons, hrow, ih]
    · have hl : ¬lookupD r "CompanyId" = some id := by
        rw [hcid]
        intro hcontra
        exact hid (Option.some.inj hcontra)
      simp only [hid, hl, decide_False, Bool.false_eq_true, if_false, ih]

theorem getLast?_filterMap_toRow? :
    ∀ l : List Dict, (∀ r ∈ l, (toRow? r).isSome) →
      (l.filterMap toRow?).getLast? =
        match l.getLast? with
        | some d => toRow? d
        | none => none
  | [], _ => rfl
  | r :: l, hfull => by
    obtain ⟨row, hrow⟩ := Option.isSome_iff_exists.mp
      (hfull r (List.mem_cons_self _ _))
    cases l with
    | nil => simp [List.filterMap_cons, hrow]
    | cons d l' =>
      obtain ⟨row', hrow'⟩ := Option.isSome_iff_exists.mp
        (hfull d (List.mem_cons_of_mem _ (List.mem_cons_self _ _)))
      have ih := getLast?_filterMap_toRow? (d :: l')
        (fun q hq => hfull q (List.mem_cons_of_mem _ hq))
      rw [List.filterMap_cons, hrow]
      have hne : (d :: l').filterMap toRow? = row' :: l'.filterMap toRow? := by
        rw [List.filterMap_cons, hrow']
      rw [hne, List.getLast?_cons_cons, ← hne, ih, List.getLast?_cons_cons]

theorem update_database_eq_loop (fail : Nat → Bool) (t : List Row)
    (rs : List Dict) : update_database fail t rs = upsertLoop fail 0 t rs := by
  cases rs <;> simp [update_database, upsertLoop]

/-- C5: running the Upsert Writer twice in succession with the same
record collection — over any initial table state that respects the
CompanyId key (no duplicate ids), with every record fully populated and
no storage failure — leaves the table with exactly one row per CompanyId
occurring in the collection, and that row's column values are the ones
supplied by (the last record with that id in) the second run: the upsert
batch is idempotent, update-over-insert. -/
theorem update_database_idempotent (fail : Nat → Bool) (t : List Row)
    (rs : List Dict) (hN : (tableIds t).Nodup)
    (hfull : ∀ r ∈ rs, (toRow? r).isSome) (hfail : ∀ j, fail j = false) :
    ∃ t1 t2,
      update_database fail t rs = Except.ok (t1, DbResult.ok) ∧
      update_database fail t1 rs = Except.ok (t2, DbResult.ok) ∧
      ∀ id : Value, (∃ r ∈ rs, lookupD r "CompanyId" = some id) →
        ∃ d row,
          (rs.filter (fun q => lookupD q "CompanyId" = some id)).getLast? =
            some d ∧
          toRow? d = some row ∧
          t2.filter (fun x => x.CompanyId = id) = [row] := by
  have h1 : update_database fail t rs =
      Except.ok (upsertRows t (rs.filterMap toRow?), DbResult.ok) := by
    rw [update_database_eq_loop]
    exact upsertLoop_run_ok fail hfail rs 0 t hfull
  have hN1 : (tableIds (upsertRows t (rs.filterMap toRow?))).Nodup :=
    tableIds_upsertRows_nodup (rs.filterMap toRow?) t hN
  have h2 : update_database fail (upsertRows t (rs.filterMap toRow?)) rs =
      Except.ok (upsertRows (upsertRows t (rs.filterMap toRow?))
        (rs.filterMap toRow?), DbResult.ok) := by
    rw [update_database_eq_loop]
    exact upsertLoop_run_ok fail hfail rs 0 _ hfull
  refine ⟨_, _, h1, h2, ?_⟩
  rintro id ⟨r, hr, hlook⟩
  obtain ⟨row, hrow⟩ := Option.isSome_iff_exists.mp (hfull r hr)
  have hcid : row.CompanyId = id := by
    have hc := (toRow?_inv r row hrow).1
    rw [hc] at hlook
    exact Option.some.inj hlook
  have hrmem : r ∈ rs.filter (fun q => lookupD q "CompanyId" = some id) :=
    List.mem_filter.mpr ⟨hr, by simp [hlook]⟩
  have hne : rs.filter (fun q => lookupD q "CompanyId" = some id) ≠ [] :=
    List.ne_nil_of_mem hrmem
  obtain ⟨d, hd⟩ : ∃ d,
      (rs.filter (fun q => lookupD q "CompanyId" = some id)).getLast? =
        some d := by
    cases hl : (rs.filter (fun q => lookupD q "CompanyId" = some id)).getLast?
    · exact absurd (List.getLast?_eq_none_iff.mp hl) hne
    · exact ⟨_, rfl⟩
  have hdmem : d ∈ rs :=
    (List.mem_filter.mp (List.mem_of_mem_getLast? hd)).1
  obtain ⟨rowd, hrowd⟩ := Option.isSome_iff_exists.mp (hfull d hdmem)
  refine ⟨d, rowd, hd, hrowd, ?_⟩
  rw [filter_upsertRows (rs.filterMap toRow?)
    (upsertRows t (rs.filterMap toRow?)) id hN1]
  rw [filterMap_toRow?_filter id rs hfull]
  rw [getLast?_filterMap_toRow? _
    (fun q hq => hfull q (List.mem_filter.mp hq).1)]
  rw [hd]
  simp [hrowd]

/-- C6: upserts commit independently in input order; when a
storage-level error strikes while record `k` is processed, the loop is
abandoned (records from `k` on are not attempted), the error is absorbed
(the function returns normally, with `aborted`), and the table holds
exactly the per-record commits of the records before `k` — no rollback
of prior commits. -/
theorem update_database_abort (fail : Nat → Bool) (t : List Row)
    (rs : List Dict) (k : Nat)
    (h1 : ∀ j, j < k → fail j = false) (h2 : fail k = true)
    (h3 : k < rs.length) (h4 : ∀ r ∈ rs.take k, (toRow? r).isSome) :
    update_database fail t rs =
      Except.ok (upsertRows t ((rs.take k).filterMap toRow?),
        DbResult.aborted) := by
  rw [update_database_eq_loop]
  exact upsertLoop_run_abort fail k rs 0 t
    (fun j hj => by simpa using h1 j hj) (by simpa using h2) h3 h4

theorem innerLoop_false :
    ∀ (loc : List (String × String)) (counter : Nat),
      innerLoop false counter loc = (loc, counter + loc.length, false)
  | [], counter => by simp [innerLoop]
  | (c, u) :: rest, counter => by
    simp only [innerLoop, Bool.false_eq_true, false_and, if_false,
      innerLoop_false rest (counter + 1), List.length_cons, Prod.mk.injEq]
    refine ⟨trivial, by omega, trivial⟩

theorem outerLoop_false :
    ∀ (locs : List (List (String × String))) (counter : Nat),
      outerLoop false counter locs = locs.flatten
  | [], _ => rfl
  | loc :: rest, counter => by
    simp only [outerLoop, innerLoop_false loc counter, Bool.false_eq_true,
      false_and, if_false, List.flatten_cons,
      outerLoop_false rest (counter + loc.length)]

theorem innerLoop_true :
    ∀ (loc : List (String × String)) (counter : Nat), counter < 5 →
      innerLoop true counter loc =
        (loc.take (5 - counter), min (counter + loc.length) 5,
          decide (5 ≤ counter + loc.length))
  | [], counter, h => by
    simp only [innerLoop, List.take_nil, List.length_nil, Nat.add_zero,
      Prod.mk.injEq]
    refine ⟨trivial, by omega, ?_⟩
    rw [decide_eq_false (by omega)]
  | (c, u) :: rest, counter, h => by
    have ih := innerLoop_true rest (counter + 1)
    simp only [innerLoop, List.length_cons]
    split
    · rename_i hcond
      have hc5 : counter + 1 = 5 := hcond.2
      have htake : 5 - counter = 0 + 1 := by omega
      rw [htake, List.take_succ_cons, List.take_zero]
      have hmin : min (counter + (rest.length + 1)) 5 = counter + 1 := by omega
      rw [hmin, decide_eq_true (by omega)]
    · rename_i hcond
      have hc5 : ¬counter + 1 = 5 := fun hx => hcond ⟨trivial, hx⟩
      rw [ih (by omega)]
      have htake : 5 - counter = (5 - (counter + 1)) + 1 := by omega
      rw [htake, List.take_succ_cons,
        show counter + 1 + rest.length = counter + (rest.length + 1) from by omega]

theorem outerLoop_true :
    ∀ (locs : List (List (String × String))) (counter : Nat), counter < 5 →
      outerLoop true counter locs = locs.flatten.take (5 - counter)
  | [], counter, h => by simp [outerLoop]
  | loc :: rest, counter, h => by
    simp only [outerLoop, innerLoop_true loc counter h, List.flatten_cons]
    split
    · rename_i hcond
      have hge : 5 ≤ counter + loc.length := by
        have := hcond.2
        omega
      rw [List.take_append_eq_append_take,
        show 5 - counter - loc.length = 0 from by omega, List.take_zero,
        List.append_nil]
    · rename_i hcond
      have hlt : counter + loc.length < 5 := by
        have : ¬((counter + loc.length) ⊓ 5 = 5) := fun hx => hcond ⟨trivial, hx⟩
        omega
      rw [Nat.min_eq_left (Nat.le_of_lt hlt),
        outerLoop_true rest (counter + loc.length) (by omega)]
      rw [List.take_append_eq_append_take,
        List.take_of_length_le (show loc.length ≤ 5 - counter from by omega),
        show 5 - counter - loc.length = 5 - (counter + loc.length) from by omega]

theorem filterMap_href_eq_map (country : String) :
    ∀ l : List (List (String × String)),
      (∀ a ∈ l, (lookupD a "href").isSome) →
      l.filterMap (fun a => (lookupD a "href").map (fun h => (country, h))) =
        l.map (fun a => (country, (lookupD a "href").getD ""))
  | [], _ => rfl
  | a :: l, hall => by
    obtain ⟨v, hv⟩ := Option.isSome_iff_exists.mp
      (hall a (List.mem_cons_self _ _))
    rw [List.filterMap_cons, List.map_cons, hv]
    simp only [Option.map_some, Option.getD_some]  
    rw [filterMap_href_eq_map country l
      (fun b hb => hall b (List.mem_cons_of_mem _ hb))]
    rfl

theorem scrape_company_details_shape (page : Option DetailPage) :
    scrape_company_details page = [] ∨
    ∃ p, page = some p ∧ ∃ t addr cid,
      p.titleText = some t ∧ p.addressText = some addr ∧
      p.companyAttr = some cid ∧
      scrape_company_details page =
        [("CompanyName", Value.s (pyStrip t)),
         ("Address", Value.s (normalizeAddress addr)),
         ("OfferedServices", Value.arr (p.serviceItems.map pyStrip)),
         ("CompanyId", Value.s (pyStrip cid))] := by
  cases page with
  | none => exact Or.inl rfl
  | some p =>
    cases ht : p.titleText with
    | none => left; simp [scrape_company_details, ht]
    | some t =>
      cases ha : p.addressText with
      | none => left; simp [scrape_company_details, ht, ha]
      | some addr =>
        cases hc : p.companyAttr with
        | none => left; simp [scrape_company_details, ht, ha, hc]
        | some cid =>
          right
          exact ⟨p, rfl, t, addr, cid, ht, ha, hc, by
            simp [scrape_company_details, ht, ha, hc]⟩

theorem exceptBind_ok (a : α) (f : α → Except ε β) :
    (Except.ok a >>= f) = f a := rfl

theorem exceptBind_error (e : ε) (f : α → Except ε β) :
    ((Except.error e : Except ε α) >>= f) = Except.error e := rfl

theorem assembleAll_required_keys (env : Env) :
    ∀ (urls : List (String × String)) (objs : List Dict) (r : Dict),
      assembleAll env urls = Except.ok objs → r ∈ objs →
      (lookupD r "CompanyName").isSome ∧ (lookupD r "Address").isSome ∧
      (lookupD r "OfferedServices").isSome ∧ (lookupD r "CompanyId").isSome ∧
      (lookupD r "Country").isSome
  | [], objs, r, h, hr => by
    simp only [assembleAll] at h
    obtain rfl : objs = [] := (Except.ok.inj h).symm
    simp at hr
  | (c, u) :: rest, objs, r, h, hr => by
    by_cases hcd : (scrape_company_details (env.detail u)).isEmpty = true
    · rw [show assembleAll env ((c, u) :: rest) = assembleAll env rest from by
        simp [assembleAll, hcd]] at h
      exact assembleAll_required_keys env rest objs r h hr
    · rcases scrape_company_details_shape (env.detail u) with hnil | hfull
      · rw [hnil] at hcd
        simp at hcd
      obtain ⟨p, hp, t, addr, cid, ht, ha, hc, heq⟩ := hfull
      rw [show assembleAll env ((c, u) :: rest) = (do
          let cid' ← getKey (scrape_company_details (env.detail u)) "CompanyId"
          let objs' ← assembleAll env rest
          pure (assembleRecord (scrape_company_details (env.detail u))
            (get_contact_details (env.contact cid')) (Value.s c) :: objs'))
        from by simp [assembleAll, hcd]] at h
      rw [heq] at h
      have hget : getKey
          [("CompanyName", Value.s (pyStrip t)),
           ("Address", Value.s (normalizeAddress addr)),
           ("OfferedServices", Value.arr (p.serviceItems.map pyStrip)),
           ("CompanyId", Value.s (pyStrip cid))] "CompanyId" =
          Except.ok (Value.s (pyStrip cid)) := by
        simp [getKey, lookupD]
      rw [hget] at h
      cases hrest : assembleAll env rest with
      | error e =>
        rw [hrest] at h
        simp only [exceptBind_ok, exceptBind_error] at h
        exact Except.noConfusion h
      | ok objs' =>
        rw [hrest] at h
        simp only [exceptBind_ok] at h
        obtain rfl := Except.ok.inj h
        rcases List.mem_cons.mp hr with rfl | hmem
        · refine ⟨?_, ?_, ?_, ?_, ?_⟩
          · exact lookupD_assembleRecord_of_left _ _ _ _ (by decide)
              (by simp [lookupD])
          · exact lookupD_assembleRecord_of_left _ _ _ _ (by decide)
              (by simp [lookupD])
          · exact lookupD_assembleRecord_of_left _ _ _ _ (by decide)
              (by simp [lookupD])
          · exact lookupD_assembleRecord_of_left _ _ _ _ (by decide)
              (by simp [lookupD])
          · rw [lookupD_assembleRecord_country]
            rfl
        · exact assembleAll_required_keys env rest objs' r hrest hmem

/-! ### Claim theorems -/

/-- C1: the claim states that every transient per-unit failure is caught
and converted into an empty result so that the run always completes with
no uncaught exception, in particular when contact resolution fails and
the company's record reaches the Upsert Writer. The code violates this:
`get_contact_details` returns the empty dict on failure, the assembled
record then lacks the `Phone`/`Email`/`Website` keys, and
`update_database` reads `record['Phone']`, raising a `KeyError` that its
`except Error` clause (which only catches `mysql.connector.Error`) does
not catch, so the exception terminates `main`. This theorem evaluates
the run at such an input: one country, one company, detail page
complete, contact request fails, database up — the run ends in the
uncaught `KeyError 'Phone'`. -/
theorem mainRun_contact_failure_uncaught :
    mainRun envFail false [[("Germany", "/de")]] [] =
      Except.error "Phone" := rfl

/-- C2 counterexample: on a failed contact request (network error,
`resp = none`) `get_contact_details` returns the empty mapping with all
three keys absent, not the all-empty structure
`{Phone: "", Email: "", Website: ""}` the claim states. -/
theorem get_contact_details_failure_cex :
    get_contact_details none = [] ∧
    get_contact_details none ≠
      [("Phone", Value.s ""), ("Email", Value.s ""), ("Website", Value.s "")] ∧
    lookupD (get_contact_details none) "Phone" = none := by decide

/-- C2 amended: `get_contact_details` either returns the empty mapping
(on any failure: failed request, or a present anchor without `href`) or
a mapping with exactly the three keys `Phone`, `Email`, `Website`; it
never returns a mapping with some but not all of the fields. -/
theorem get_contact_details_shape (resp : Option ContactPage) :
    get_contact_details resp = [] ∨
    ∃ ph em ws, get_contact_details resp =
      [("Phone", Value.s ph), ("Email", Value.s em), ("Website", Value.s ws)] := by
  cases resp with
  | none => exact Or.inl rfl
  | some p =>
    rcases h1 : contactField p.phoneA "tel:" with e1 | ph <;>
      rcases h2 : contactField p.mailA "mailto:" with e2 | em <;>
        rcases h3 : contactWebsite p.siteA with e3 | ws <;>
          simp [get_contact_details, h1, h2, h3]

/-- C3 counterexample: the assembly `{**company_details,
**contact_details, "Country": country}` lets the later-merged
ContactDetails mapping win on a key collision, not CompanyDetails as the
claim states: with CompanyDetails `{K: "a"}` and ContactDetails
`{K: "b"}` the assembled record carries `"b"`. -/
theorem assembleRecord_collision_cex :
    lookupD (assembleRecord [("K", Value.s "a")] [("K", Value.s "b")]
      (Value.s "DE")) "K" = some (Value.s "b") ∧
    some (Value.s "b") ≠ some (Value.s "a") := by decide

/-- C3 amended: for every key (other than `Country`) present in the
ContactDetails mapping — in particular every key present in both inputs
— the assembled record carries the ContactDetails value (later-merge
wins), and the `Country` key always carries the supplied country
value. -/
theorem assembleRecord_contact_precedence (a b : Dict) (c : Value)
    (k : String) (hk : k ≠ "Country") (hb : (b.map Prod.fst).Nodup)
    (hbk : (lookupD b k).isSome) :
    lookupD (assembleRecord a b c) k = lookupD b k ∧
    lookupD (assembleRecord a b c) "Country" = some c := by
  refine ⟨?_, lookupD_assembleRecord_country a b c⟩
  unfold assembleRecord
  rw [lookupD_dictInsert, if_neg (fun h => hk h.symm), lookupD_dictMerge,
    lookupD_reverse_of_nodup k b hb]
  obtain ⟨v, hv⟩ := Option.isSome_iff_exists.mp hbk
  rw [hv]

/-- Witness for C3's amended theorem at a concrete collision. -/
theorem assembleRecord_contact_precedence_witness :
    lookupD (assembleRecord [("K", Value.s "a")] [("K", Value.s "b")]
      (Value.s "DE")) "K" = lookupD [("K", Value.s "b")] "K" ∧
    lookupD (assembleRecord [("K", Value.s "a")] [("K", Value.s "b")]
      (Value.s "DE")) "Country" = some (Value.s "DE") :=
  assembleRecord_contact_precedence [("K", Value.s "a")]
    [("K", Value.s "b")] (Value.s "DE") "K" (by decide) (by decide) (by decide)

/-- C4 counterexample: on a detail page where the services selector
matches nothing (`select` returns the empty list) but the other three
selectors match, `scrape_company_details` returns a partially meaningful
record with `OfferedServices = []` — not the empty result the claim
requires for any of the four selectors failing. -/
theorem scrape_missing_services_cex :
    scrape_company_details
        (some ⟨some "Acme", some "Street 1", [], some "42"⟩) =
      [("CompanyName", Value.s "Acme"), ("Address", Value.s "Street 1"),
       ("OfferedServices", Value.arr []), ("CompanyId", Value.s "42")] ∧
    scrape_company_details
        (some ⟨some "Acme", some "Street 1", [], some "42"⟩) ≠ [] := by decide

/-- C4 amended: the extraction is all-or-nothing with respect to three
of the four selectors — it returns the empty result exactly when the
fetch fails or the company-name heading, the address block, or the
company-id marker is absent; an absent services list does not fail the
page (it yields `OfferedServices = []`). -/
theorem scrape_all_or_nothing (page : Option DetailPage) :
    scrape_company_details page = [] ↔
      page = none ∨ ∃ p, page = some p ∧
        (p.titleText = none ∨ p.addressText = none ∨
          p.companyAttr = none) := by
  cases page with
  | none => simp [scrape_company_details]
  | some p =>
    cases ht : p.titleText <;> cases ha : p.addressText <;>
      cases hc : p.companyAttr <;>
        simp [scrape_company_details, ht, ha, hc]

/-- Witness for C5 at a concrete run: empty initial table, a one-record
batch, no storage failures. -/
theorem update_database_idempotent_witness :
    ∃ t1 t2,
      update_database (fun _ => false) [] [recW] =
        Except.ok (t1, DbResult.ok) ∧
      update_database (fun _ => false) t1 [recW] =
        Except.ok (t2, DbResult.ok) ∧
      ∀ id : Value, (∃ r ∈ [recW], lookupD r "CompanyId" = some id) →
        ∃ d row,
          (([recW] : List Dict).filter
            (fun q => lookupD q "CompanyId" = some id)).getLast? = some d ∧
          toRow? d = some row ∧
          t2.filter (fun x => x.CompanyId = id) = [row] :=
  update_database_idempotent (fun _ => false) [] [recW] (by decide)
    (by decide) (fun _ => rfl)

/-- Witness for C6 at a concrete run: a two-record batch whose second
record hits a storage error; the first record's commit survives and the
function returns `aborted`. -/
theorem update_database_abort_witness :
    update_database (fun i => decide (i = 1)) [] [recW, recW2] =
      Except.ok (upsertRows []
        ((([recW, recW2] : List Dict).take 1).filterMap toRow?),
        DbResult.aborted) :=
  update_database_abort (fun i => decide (i = 1)) [] [recW, recW2] 1
    (fun j hj => by
      have hj0 : j = 0 := by omega
      subst hj0
      rfl)
    rfl (by decide) (by decide)

/-- C7 counterexample: the claim counts anchors nested (at any depth)
under company-name marker elements, but the code's selector
`div[class="company-name"] > a` matches only direct children, and a
matched anchor without `href` empties the whole result. On a page with
two anchors nested under a company-name div (one direct child without
`href`, one grandchild with `href`), the claim promises two pairs, but
the enumerator returns none. -/
theorem get_company_urls_nested_cex :
    (nestedAnchors false pageCex7).length = 2 ∧
    get_company_urls (some pageCex7) "Germany" = [] := by decide

/-- C7 amended: provided every matched anchor carries an `href`, the
enumerator returns exactly one pair per anchor that is a direct child of
a company-name div, in document order, each pair carrying the supplied
country name first and the anchor's `href` second; in particular the
output length equals the number of such direct-child anchors. -/
theorem get_company_urls_child_anchors (root : Node) (country : String)
    (h : ∀ a ∈ collectAnchors false root, (lookupD a "href").isSome) :
    get_company_urls (some root) country =
      (collectAnchors false root).map
        (fun a => (country, (lookupD a "href").getD "")) ∧
    (get_company_urls (some root) country).length =
      (collectAnchors false root).length := by
  have hall : (collectAnchors false root).all
      (fun a => (lookupD a "href").isSome) = true :=
    List.all_eq_true.mpr (fun a ha => h a ha)
  have heq : get_company_urls (some root) country =
      (collectAnchors false root).filterMap
        (fun a => (lookupD a "href").map (fun hh => (country, hh))) := by
    simp only [get_company_urls]
    rw [if_pos hall]
  rw [heq, filterMap_href_eq_map country _ h]
  exact ⟨rfl, by rw [List.length_map]⟩

/-- Witness for C7's amended theorem on a concrete listing page with one
direct-child anchor. -/
theorem get_company_urls_child_anchors_witness :
    get_company_urls (some (Node.elem "div" [("class", "company-name")]
        (NodeList.cons (Node.elem "a" [("href", "/c/x")] NodeList.nil)
          NodeList.nil))) "Germany" =
      (collectAnchors false (Node.elem "div" [("class", "company-name")]
        (NodeList.cons (Node.elem "a" [("href", "/c/x")] NodeList.nil)
          NodeList.nil))).map
        (fun a => ("Germany", (lookupD a "href").getD "")) ∧
    (get_company_urls (some (Node.elem "div" [("class", "company-name")]
        (NodeList.cons (Node.elem "a" [("href", "/c/x")] NodeList.nil)
          NodeList.nil))) "Germany").length =
      (collectAnchors false (Node.elem "div" [("class", "company-name")]
        (NodeList.cons (Node.elem "a" [("href", "/c/x")] NodeList.nil)
          NodeList.nil))).length :=
  get_company_urls_child_anchors _ "Germany" (by decide)

/-- C8: with the debug flag enabled and at least five country-iterations
configured, the enumeration loop processes exactly the first five
country-iterations (in order) and stops, regardless of the remaining
locations; with the flag disabled every configured country-iteration is
processed. -/
theorem debug_cap_five (locations : List (List (String × String)))
    (h : 5 ≤ locations.flatten.length) :
    outerLoop true 0 locations = locations.flatten.take 5 ∧
    (outerLoop true 0 locations).length = 5 ∧
    outerLoop false 0 locations = locations.flatten := by
  have h1 := outerLoop_true locations 0 (by omega)
  refine ⟨by simpa using h1, ?_, outerLoop_false locations 0⟩
  rw [h1]
  rw [List.length_take]
  omega

/-- Witness for C8 with six configured single-country locations. -/
theorem debug_cap_five_witness :
    outerLoop true 0 [[("a", "1")], [("b", "2")], [("c", "3")],
        [("d", "4")], [("e", "5")], [("f", "6")]] =
      ([[("a", "1")], [("b", "2")], [("c", "3")], [("d", "4")],
        [("e", "5")], [("f", "6")]] :
          List (List (String × String))).flatten.take 5 ∧
    (outerLoop true 0 [[("a", "1")], [("b", "2")], [("c", "3")],
        [("d", "4")], [("e", "5")], [("f", "6")]]).length = 5 ∧
    outerLoop false 0 [[("a", "1")], [("b", "2")], [("c", "3")],
        [("d", "4")], [("e", "5")], [("f", "6")]] =
      ([[("a", "1")], [("b", "2")], [("c", "3")], [("d", "4")],
        [("e", "5")], [("f", "6")]] :
          List (List (String × String))).flatten :=
  debug_cap_five _ (by decide)

/-- C9 counterexample: the code strips contact prefixes with
`str.replace`, which removes every occurrence, not only a leading
prefix: for a phone anchor with href `tel:tel:123` the claim promises
`tel:123` but the code yields `123`. The same page also refutes "empty
exactly when absent": its mail anchor is present with href `mailto:`,
yet the Email field is the empty string. -/
theorem get_contact_details_replace_cex :
    get_contact_details (some ⟨some [("href", "tel:tel:123")],
        some [("href", "mailto:")], none⟩) =
      [("Phone", Value.s "123"), ("Email", Value.s ""),
       ("Website", Value.s "")] ∧
    stripPrefixSpec "tel:" "tel:tel:123" = "tel:123" ∧
    ("123" : String) ≠ "tel:123" ∧
    (⟨some [("href", "tel:tel:123")], some [("href", "mailto:")], none⟩ :
      ContactPage).mailA ≠ none := by decide

theorem contactField_eval (anchor : Option (List (String × String)))
    (pre : String)
    (h : ∀ attrs, anchor = some attrs → (lookupD attrs "href").isSome) :
    contactField anchor pre =
      Except.ok (match anchor with
        | some attrs => pyReplace ((lookupD attrs "href").getD "") pre ""
        | none => "") := by
  cases anchor with
  | none => rfl
  | some attrs =>
    obtain ⟨v, hv⟩ := Option.isSome_iff_exists.mp (h attrs rfl)
    simp [contactField, hv]

theorem contactWebsite_eval (anchor : Option (List (String × String)))
    (h : ∀ attrs, anchor = some attrs → (lookupD attrs "href").isSome) :
    contactWebsite anchor =
      Except.ok (match anchor with
        | some attrs => (lookupD attrs "href").getD ""
        | none => "") := by
  cases anchor with
  | none => rfl
  | some attrs =>
    obtain ⟨v, hv⟩ := Option.isSome_iff_exists.mp (h attrs rfl)
    simp [contactWebsite, hv]

/-- C9 amended: when every present anchor carries an `href`, each field
is computed independently from its own anchor: Phone is the phone
anchor's href with every occurrence of `tel:` removed (`str.replace`),
Email the mail anchor's href with every occurrence of `mailto:` removed,
Website the site anchor's href verbatim, and a field is the empty string
whenever its anchor is absent, independently of the other two. -/
theorem get_contact_details_fields (p : ContactPage)
    (hp : ∀ attrs, p.phoneA = some attrs → (lookupD attrs "href").isSome)
    (hm : ∀ attrs, p.mailA = some attrs → (lookupD attrs "href").isSome)
    (hs : ∀ attrs, p.siteA = some attrs → (lookupD attrs "href").isSome) :
    get_contact_details (some p) =
      [("Phone", Value.s (match p.phoneA with
          | some attrs => pyReplace ((lookupD attrs "href").getD "") "tel:" ""
          | none => "")),
       ("Email", Value.s (match p.mailA with
          | some attrs =>
            pyReplace ((lookupD attrs "href").getD "") "mailto:" ""
          | none => "")),
       ("Website", Value.s (match p.siteA with
          | some attrs => (lookupD attrs "href").getD ""
          | none => ""))] := by
  obtain ⟨pa, ma, sa⟩ := p
  simp only [get_contact_details, contactField_eval pa "tel:" hp,
    contactField_eval ma "mailto:" hm, contactWebsite_eval sa hs]
  cases pa <;> cases ma <;> cases sa <;> rfl

/-- Witness for C9's amended theorem: phone and site anchors present,
mail anchor absent. -/
theorem get_contact_details_fields_witness :
    get_contact_details (some ⟨some [("href", "tel:+49")], none,
        some [("href", "https://x.example")]⟩) =
      [("Phone", Value.s (match (some [("href", "tel:+49")] :
            Option (List (String × String))) with
          | some attrs => pyReplace ((lookupD attrs "href").getD "") "tel:" ""
          | none => "")),
       ("Email", Value.s (match (none : Option (List (String × String))) with
          | some attrs =>
            pyReplace ((lookupD attrs "href").getD "") "mailto:" ""
          | none => "")),
       ("Website", Value.s (match (some [("href", "https://x.example")] :
            Option (List (String × String))) with
          | some attrs => (lookupD attrs "href").getD ""
          | none => ""))] :=
  get_contact_details_fields
    ⟨some [("href", "tel:+49")], none, some [("href", "https://x.example")]⟩
    (by decide) (by decide) (by decide)

/-- C10: every record the assembly loop appends carries the keys
`CompanyName`, `Address`, `OfferedServices`, `CompanyId` and `Country`
(a company whose detail extraction returns the empty mapping is skipped
entirely); and the keys `Phone`, `Email`, `Website` can be absent from
an appended record, namely when contact resolution fails for that
company. -/
theorem resultObjs_required_keys :
    (∀ (env : Env) (urls : List (String × String)) (objs : List Dict)
        (r : Dict),
      assembleAll env urls = Except.ok objs → r ∈ objs →
      (lookupD r "CompanyName").isSome ∧ (lookupD r "Address").isSome ∧
      (lookupD r "OfferedServices").isSome ∧
      (lookupD r "CompanyId").isSome ∧ (lookupD r "Country").isSome) ∧
    (∃ (env : Env) (urls : List (String × String)) (objs : List Dict)
        (r : Dict),
      assembleAll env urls = Except.ok objs ∧ r ∈ objs ∧
      lookupD r "Phone" = none ∧ lookupD r "Email" = none ∧
      lookupD r "Website" = none) := by
  constructor
  · exact fun env urls objs r h hr =>
      assembleAll_required_keys env urls objs r h hr
  · exact ⟨envFail, [("Germany", "/c/alpha")], [recNoContact],
      recNoContact, rfl, by decide, rfl, rfl, rfl⟩

/-- Witness for C10 on the concrete failed-contact run. -/
theorem resultObjs_required_keys_witness :
    (lookupD recNoContact "CompanyName").isSome ∧
    (lookupD recNoContact "Address").isSome ∧
    (lookupD recNoContact "OfferedServices").isSome ∧
    (lookupD recNoContact "CompanyId").isSome ∧
    (lookupD recNoContact "Country").isSome :=
  resultObjs_required_keys.1 envFail [("Germany", "/c/alpha")]
    [recNoContact] recNoContact rfl (by decide)
